import Mathlib

set_option maxHeartbeats 1000000
set_option maxRecDepth 4096

namespace AsyncGraphql

/-- Type-reference strings from the registry are modelled as lists of characters. -/
abbrev Str := List Char

/-- Embeds parse_non_null from src/src/registry.rs: a reference ending in a bang
is non-null, and the returned slice drops that final bang. -/
def parse_non_null (s : Str) : Option Str :=
  if s.getLast? = some '!' then some s.dropLast else none

/-- Embeds parse_list from src/src/registry.rs: a reference starting with an opening
bracket is a list, and the returned slice drops the first and last characters.
The source slices from index 1 to len - 1, which panics on the one-character string
holding the opening bracket alone; the model requires length at least 2 there and
otherwise falls through to the named form. -/
def parse_list (s : Str) : Option Str :=
  if s.head? = some '[' ∧ 2 ≤ s.length then some s.tail.dropLast else none

/-- Embeds the TypeName enum of src/src/registry.rs. -/
inductive TypeName where
  | List (inner : Str)
  | NonNull (inner : Str)
  | Named (name : Str)
deriving DecidableEq, Repr

/-- Embeds TypeName::create from src/src/registry.rs: the trailing bang is
recognised first, then the bracket wrapping, and the leftover is the named form. -/
def TypeName.create (s : Str) : TypeName :=
  match parse_non_null s with
  | some inner => .NonNull inner
  | none =>
    match parse_list s with
    | some inner => .List inner
    | none => .Named s

/-- Embeds the Display impl for TypeName from src/src/registry.rs. -/
def TypeName.display : TypeName → Str
  | .Named n => n
  | .NonNull n => n ++ ['!']
  | .List n => '[' :: (n ++ [']'])

theorem parse_non_null_length {s inner : Str} (h : parse_non_null s = some inner) :
    inner.length + 1 = s.length := by
  unfold parse_non_null at h
  split at h
  · rename_i hl
    cases h
    have hne : s ≠ [] := by
      intro he
      rw [he] at hl
      simp at hl
    have hpos : 0 < s.length := List.length_pos.mpr hne
    simp [List.length_dropLast]
    omega
  · cases h

theorem parse_list_length {s inner : Str} (h : parse_list s = some inner) :
    inner.length + 2 = s.length := by
  unfold parse_list at h
  split at h
  · rename_i hl
    cases h
    simp [List.length_dropLast, List.length_tail]
    omega
  · cases h

theorem create_nonNull_length {s inner : Str} (h : TypeName.create s = .NonNull inner) :
    inner.length + 1 = s.length := by
  unfold TypeName.create at h
  split at h
  · rename_i heq
    cases h
    exact parse_non_null_length heq
  · split at h
    · cases h
    · cases h

theorem create_list_length {s inner : Str} (h : TypeName.create s = .List inner) :
    inner.length + 2 = s.length := by
  unfold TypeName.create at h
  split at h
  · cases h
  · split at h
    · rename_i heq
      cases h
      exact parse_list_length heq
    · cases h

/-- Termination measure for the subtype recursion: the length of the carried
string plus a weight for the wrapper that was already consumed. -/
def TypeName.weight : TypeName → Nat
  | .Named n => n.length
  | .NonNull n => n.length + 1
  | .List n => n.length + 2

theorem weight_create_le (s : Str) : (TypeName.create s).weight ≤ s.length := by
  unfold TypeName.create
  split
  · rename_i heq
    have := parse_non_null_length heq
    simp [TypeName.weight]
    omega
  · split
    · rename_i heq
      have := parse_list_length heq
      simp [TypeName.weight]
      omega
    · simp [TypeName.weight]

/-- Embeds TypeName::is_subtype from src/src/registry.rs: self is the declared
(super) expectation and sub the candidate. -/
def TypeName.is_subtype (self sub : TypeName) : Bool :=
  match self, sub with
  | .NonNull super_type, .NonNull sub_type =>
      TypeName.is_subtype (TypeName.create super_type) (TypeName.create sub_type)
  | .Named super_type, .NonNull sub_type =>
      TypeName.is_subtype (TypeName.create super_type) (TypeName.create sub_type)
  | .Named super_type, .Named sub_type => super_type == sub_type
  | .List super_type, .List sub_type =>
      TypeName.is_subtype (TypeName.create super_type) (TypeName.create sub_type)
  | _, _ => false
termination_by self.weight + sub.weight
decreasing_by
  all_goals
    have h1 := weight_create_le super_type
    have h2 := weight_create_le sub_type
    simp only [TypeName.weight] at h1 h2 ⊢
    omega

/-- Embeds TypeName::concrete_typename from src/src/registry.rs: strips every
wrapper down to the bare declared name. -/
def TypeName.concrete_typename (s : Str) : Str :=
  match h : TypeName.create s with
  | .List inner => TypeName.concrete_typename inner
  | .NonNull inner => TypeName.concrete_typename inner
  | .Named n => n
termination_by s.length
decreasing_by
  · have := create_list_length h
    omega
  · have := create_nonNull_length h
    omega

/-- Embeds TypeName::is_non_null from src/src/registry.rs. -/
def TypeName.is_non_null : TypeName → Bool
  | .NonNull _ => true
  | _ => false

/-- The abstract syntax of well-formed type references: the named, list and
non-null combinators of the spec. fmt produces the string form the source
stores in the registry. -/
inductive TypeRef where
  | named (name : Str)
  | list (inner : TypeRef)
  | nonNull (inner : TypeRef)

def TypeRef.fmt : TypeRef → Str
  | .named n => n
  | .list t => '[' :: (t.fmt ++ [']'])
  | .nonNull t => t.fmt ++ ['!']

/-- A legal base type name holds none of the wrapper characters. -/
def goodName (n : Str) : Bool :=
  !(n.contains '[') && !(n.contains ']') && !(n.contains '!')

/-- A legal type reference uses legal base names at every leaf. -/
def TypeRef.good : TypeRef → Bool
  | .named n => goodName n
  | .list t => t.good
  | .nonNull t => t.good

theorem create_fmt_nonNull (t : TypeRef) :
    TypeName.create (TypeRef.fmt (.nonNull t)) = .NonNull t.fmt := by
  unfold TypeName.create parse_non_null
  simp [TypeRef.fmt]

theorem create_fmt_list (t : TypeRef) :
    TypeName.create (TypeRef.fmt (.list t)) = .List t.fmt := by
  have h1 : ('[' :: (t.fmt ++ [']'])).getLast? = some ']' := by
    rw [show ('[' :: (t.fmt ++ [']'])) = ('[' :: t.fmt) ++ [']'] by simp]
    exact List.getLast?_concat _
  unfold TypeName.create parse_non_null parse_list
  simp [TypeRef.fmt, h1]

theorem create_good_named {n : Str} (h : goodName n = true) :
    TypeName.create n = .Named n := by
  simp only [goodName, List.contains, Bool.and_eq_true, Bool.not_eq_true',
    List.elem_eq_mem, decide_eq_false_iff_not] at h
  obtain ⟨⟨hl, _⟩, hb⟩ := h
  unfold TypeName.create parse_non_null parse_list
  have h1 : n.getLast? ≠ some '!' := by
    intro hc
    cases n with
    | nil => simp at hc
    | cons a as =>
      exact hb (List.mem_of_getLast?_eq_some hc)
  have h2 : n.head? ≠ some '[' := by
    intro hc
    have hm : '[' ∈ n := List.mem_of_mem_head? (by rw [hc]; simp)
    exact hl hm
  simp [h1, h2]

/-- Embeds the CacheControl struct from src/src/registry.rs; max_age is a
non-negative machine integer, modelled as Nat. -/
structure CacheControl where
  public : Bool
  max_age : Nat
deriving DecidableEq, Repr

/-- Embeds the Default impl for CacheControl from src/src/registry.rs. -/
def CacheControl.default : CacheControl := ⟨true, 0⟩

/-- Embeds CacheControl::merge from src/src/registry.rs; the source mutates
self in place, the model returns the merged value. -/
def CacheControl.merge (self other : CacheControl) : CacheControl :=
  ⟨self.public && other.public,
    if self.max_age = 0 then other.max_age
    else if other.max_age = 0 then self.max_age
    else min self.max_age other.max_age⟩

/-- Embeds the GqlValue enum of the parser collaborator, as pattern-matched by
src/src/validation/utils.rs: null, variable, int, string, boolean, enum
literal, list and object values. Object fields are an ordered association
list standing for the ordered map of the source; the float and upload
variants are never examined by the embedded code and are omitted. -/
inductive GqlValue where
  | null
  | variable (name : String)
  | int (value : Int)
  | string (value : String)
  | boolean (value : Bool)
  | enum (name : String)
  | list (values : List GqlValue)
  | object (fields : List (String × GqlValue))
deriving Repr

/-- Embeds QueryPathSegment from the context module. -/
inductive QueryPathSegment where
  | name (s : String)
  | index (i : Nat)
deriving DecidableEq, Repr

/-- Embeds QueryPathNode: the source keeps a backward-pointing parent
reference plus the local segment; the chain of ancestor segments is modelled
as a list with the outermost segment first. -/
structure QueryPathNode where
  parents : List QueryPathSegment
  segment : QueryPathSegment
deriving DecidableEq, Repr

/-- Builds the child path node the validator allocates per descent:
the source writes QueryPathNode with parent pointing at the current node. -/
def QueryPathNode.child (p : QueryPathNode) (seg : QueryPathSegment) : QueryPathNode :=
  ⟨p.parents ++ [p.segment], seg⟩

def QueryPathSegment.render : QueryPathSegment → String
  | .name s => s
  | .index i => toString i

/-- Modelled from the spec: the backward-linked path trail is walked only when
formatting an error (spec section 9); the Display impl lives in context.rs,
which is not under src/. Segments are joined with dots from the outermost
segment to the current one. -/
def QueryPathNode.render (p : QueryPathNode) : String :=
  String.intercalate "." ((p.parents ++ [p.segment]).map QueryPathSegment.render)

/-- Embeds valid_error from src/src/validation/utils.rs. -/
def valid_error (path_node : QueryPathNode) (msg : String) : String :=
  "\"" ++ path_node.render ++ "\", " ++ msg

/-- Embeds the InputValue struct from src/src/registry.rs; the validator
capability is a function producing an optional failure message, and the
description field is omitted as it is never read by the embedded code. -/
structure InputValue where
  name : String
  ty : Str
  default_value : Option String
  validator : Option (GqlValue → Option String)

/-- Embeds the Field struct from src/src/registry.rs; the description and
args fields are never read by the embedded operations and are omitted. -/
structure Field where
  name : String
  ty : Str
  deprecation : Option String
  cache_control : CacheControl
  external : Bool
  requires : Option String
  provides : Option String

/-- Embeds the Type enum from src/src/registry.rs (named GqlType because Type
is reserved in Lean). Maps are ordered association lists; descriptions are
omitted; the scalar validity predicate is a function on values. -/
inductive GqlType where
  | scalar (name : String) (is_valid : GqlValue → Bool)
  | object (name : String) (fields : List Field) (cache_control : CacheControl)
      (extend : Bool) (keys : Option (List String))
  | interface (name : String) (fields : List Field) (possible_types : List String)
      (extend : Bool) (keys : Option (List String))
  | union (name : String) (possible_types : List String)
  | enum (name : String) (enum_values : List String)
  | inputObject (name : String) (input_fields : List InputValue)

/-- Embeds Type::fields from src/src/registry.rs. -/
def GqlType.fields : GqlType → Option (List Field)
  | .object _ fields _ _ _ => some fields
  | .interface _ fields _ _ _ => some fields
  | _ => none

/-- Embeds Type::field_by_name from src/src/registry.rs. -/
def GqlType.field_by_name (self : GqlType) (name : String) : Option Field :=
  self.fields.bind fun fields => fields.find? fun f => f.name == name

/-- Embeds Type::name from src/src/registry.rs. -/
def GqlType.name : GqlType → String
  | .scalar name _ => name
  | .object name _ _ _ _ => name
  | .interface name _ _ _ _ => name
  | .union name _ => name
  | .enum name _ => name
  | .inputObject name _ => name

/-- Embeds Type::is_composite from src/src/registry.rs. -/
def GqlType.is_composite : GqlType → Bool
  | .object _ _ _ _ _ => true
  | .interface _ _ _ _ _ => true
  | .union _ _ => true
  | _ => false

/-- Embeds the Registry struct from src/src/registry.rs; the type catalog is
an ordered association list from name to type. The directive table and the
implements relation are never read by the embedded operations and are
omitted. -/
structure Registry where
  types : List (String × GqlType)
  query_type : String
  mutation_type : Option String := none
  subscription_type : Option String := none

/-- Lookup in the type catalog, standing for HashMap::get on Registry.types. -/
def Registry.get_type (reg : Registry) (name : String) : Option GqlType :=
  (reg.types.find? fun p => p.1 == name).map Prod.snd

/-- The starts_with check for the introspection prefix, taken down to the
underlying characters (the library startsWith is not kernel-reducible). -/
def starts_with_underscores (name : String) : Bool :=
  match name.data with
  | '_' :: '_' :: _ => true
  | _ => false

/-- Embeds Registry::create_federation_fields from src/src/registry.rs: one
line per field, skipping introspection-prefixed and federation-internal
names, with the external, requires and provides markers appended where
present. -/
def create_federation_fields (fields : List Field) : String :=
  fields.foldl
    (fun sdl field =>
      if starts_with_underscores field.name then sdl
      else if field.name == "_service" || field.name == "_entities" then sdl
      else
        sdl ++ "\t" ++ field.name ++ ": " ++ String.mk field.ty
          ++ (if field.external then " @external" else "")
          ++ (match field.requires with
              | some r => " @requires(fields: \"" ++ r ++ "\")"
              | none => "")
          ++ (match field.provides with
              | some p => " @provides(fields: \"" ++ p ++ "\")"
              | none => "")
          ++ "\n")
    ""

/-- The key directives written before a type block. -/
def federation_keys : Option (List String) → String
  | some ks => ks.foldl (fun acc k => acc ++ "@key(fields: \"" ++ k ++ "\") ") ""
  | none => ""

/-- Embeds Registry::create_federation_type from src/src/registry.rs (the self
receiver is never read by the source body). The object arm returns nothing
when the name has the introspection prefix, when it is the internal _Service
object, or when the object has exactly four fields; at that last check the
source comment reads: Is empty query root, only __schema, __type, _service,
_entities fields. -/
def create_federation_type (ty : GqlType) : String :=
  match ty with
  | .object name fields _ extend keys =>
      if starts_with_underscores name then ""
      else if name == "_Service" then ""
      else if fields.length == 4 then ""
      else
        (if extend then "extend " else "")
          ++ "type " ++ name ++ " "
          ++ federation_keys keys
          ++ "\x7b\n" ++ create_federation_fields fields ++ "\x7d\n"
  | .interface name fields _ extend keys =>
      (if extend then "extend " else "")
        ++ "interface " ++ name ++ " "
        ++ federation_keys keys
        ++ "\x7b\n" ++ create_federation_fields fields ++ "\x7d\n"
  | _ => ""

/-- Embeds Registry::create_federation_sdl from src/src/registry.rs: one block
per catalog entry in catalog order. -/
def Registry.create_federation_sdl (reg : Registry) : String :=
  reg.types.foldl (fun sdl p => sdl ++ create_federation_type p.2) ""

/-- Embeds map lookup on an object value (BTreeMap::get in the source). -/
def objGet (values : List (String × GqlValue)) (key : String) : Option GqlValue :=
  match values with
  | [] => none
  | p :: rest => if p.1 == key then some p.2 else objGet rest key

theorem objGet_sizeOf {values : List (String × GqlValue)} {key : String} {v : GqlValue} :
    objGet values key = some v → sizeOf v < sizeOf values := by
  induction values with
  | nil => intro h; simp [objGet] at h
  | cons p rest ih =>
    intro h
    unfold objGet at h
    split at h
    · cases h
      obtain ⟨k, w⟩ := p
      simp
      omega
    · have := ih h
      simp
      omega

mutual

/-- Helper for the leading if-let of is_valid_input_value: recognises a bound
variable reference. -/
def GqlValue.is_variable : GqlValue → Bool
  | .variable _ => true
  | _ => false

/-- Embeds is_valid_input_value from src/src/validation/utils.rs. A bound
variable is accepted immediately; wrappers are stripped before the named
dispatch; a registry entry that is missing is unreachable in the source
(it panics) and yields no error in the model. -/
def is_valid_input_value (reg : Registry) (type_name : Str) (value : GqlValue)
    (path_node : QueryPathNode) : Option String :=
  if value.is_variable then none
  else
    match h : TypeName.create type_name with
    | .NonNull inner =>
      match value with
      | .null => some (valid_error path_node
          ("expected type \"" ++ String.mk inner ++ "\""))
      | v => is_valid_input_value reg inner v path_node
    | .List inner =>
      match value with
      | .list elems => valid_list_elems reg inner elems 0 path_node
      | v => is_valid_input_value reg inner v path_node
    | .Named name =>
      match value with
      | .null => none
      | v =>
        match reg.get_type (String.mk name) with
        | some (.scalar _ is_valid) =>
            if !(is_valid v) then
              some (valid_error path_node
                ("expected type \"" ++ String.mk name ++ "\""))
            else none
        | some (.enum ename enum_values) =>
            match v with
            | .enum n =>
                if !(enum_values.contains n) then
                  some (valid_error path_node
                    ("enumeration type \"" ++ ename
                      ++ "\" does not contain the value \"" ++ n ++ "\""))
                else none
            | _ => some (valid_error path_node
                ("expected type \"" ++ String.mk name ++ "\""))
        | some (.inputObject oname input_fields) =>
            match v with
            | .object values =>
                match valid_input_object_fields reg input_fields oname values path_node with
                | some reason => some reason
                | none =>
                  match (values.map Prod.fst).filter
                      (fun k => !(input_fields.any (fun f => f.name == k))) with
                  | [] => none
                  | k :: _ => some (valid_error path_node
                      ("unknown field \"" ++ k ++ "\" of type \"" ++ oname ++ "\""))
            | _ => none
        | some _ => none
        | none => none
termination_by (sizeOf value, type_name.length)
decreasing_by
  all_goals
    first
    | (apply Prod.Lex.right
       have := create_nonNull_length h
       omega)
    | (apply Prod.Lex.right
       have := create_list_length h
       omega)
    | (apply Prod.Lex.left
       simp
       omega)
    | (apply Prod.Lex.left
       simp)

/-- The element loop of the List arm of is_valid_input_value: each element is
validated against the inner reference at an index-extended path, first
failure wins. -/
def valid_list_elems (reg : Registry) (inner : Str) (elems : List GqlValue) (idx : Nat)
    (path_node : QueryPathNode) : Option String :=
  match elems with
  | [] => none
  | elem :: rest =>
    match is_valid_input_value reg inner elem (path_node.child (.index idx)) with
    | some reason => some reason
    | none => valid_list_elems reg inner rest (idx + 1) path_node
termination_by (sizeOf elems, inner.length + 1)
decreasing_by
  all_goals
    first
    | (apply Prod.Lex.left
       simp
       omega)
    | (apply Prod.Lex.left
       simp)

/-- The declared-field loop of the InputObject arm of is_valid_input_value:
a present field runs its validator capability first and then recurses on its
declared type; an absent field is an error exactly when its type is non-null
and it has no default. -/
def valid_input_object_fields (reg : Registry) (input_fields : List InputValue)
    (object_name : String) (values : List (String × GqlValue))
    (path_node : QueryPathNode) : Option String :=
  match input_fields with
  | [] => none
  | field :: rest =>
    match hv : objGet values field.name with
    | some v =>
      match field.validator with
      | some validator =>
        match validator v with
        | some reason => some (valid_error (path_node.child (.name field.name)) reason)
        | none =>
          match is_valid_input_value reg field.ty v (path_node.child (.name field.name)) with
          | some reason => some reason
          | none => valid_input_object_fields reg rest object_name values path_node
      | none =>
        match is_valid_input_value reg field.ty v (path_node.child (.name field.name)) with
        | some reason => some reason
        | none => valid_input_object_fields reg rest object_name values path_node
    | none =>
      if (TypeName.create field.ty).is_non_null && field.default_value.isNone then
        some (valid_error path_node
          ("field \"" ++ field.name ++ "\" of type \"" ++ object_name
            ++ "\" is required but not provided"))
      else valid_input_object_fields reg rest object_name values path_node
termination_by (sizeOf values, input_fields.length)
decreasing_by
  all_goals
    first
    | (apply Prod.Lex.left
       exact objGet_sizeOf hv)
    | (apply Prod.Lex.right
       simp)

end

/-- Embeds serde_json::Value as produced by the resolution engine. -/
inductive JValue where
  | null
  | bool (b : Bool)
  | num (n : Int)
  | str (s : String)
  | arr (elems : List JValue)
  | obj (fields : List (String × JValue))
deriving Repr

/-- Embeds the error cases of src/src/resolver.rs: the GqlError::Query wrapper
carries a position and an optional path, which are external to the embedded
control flow and omitted; fieldError stands for any resolver-level failure
returned by the field-resolution capability. -/
inductive GErr where
  | mustHaveSubFields (object : String)
  | fieldNotFound (field_name : String) (object : String)
  | unknownFragment (name : String)
  | fieldError (message : String)
deriving Repr, DecidableEq

/-- One pending field task as pushed by collect_fields: the result key, the
completion time of its future (when the concurrent executor would see it
finish) and its outcome. The source stores a boxed future; time and outcome
together are its shallow model. -/
structure FieldTask where
  key : String
  time : Nat
  out : Except GErr JValue

/-- True when the task's future resolves to a value. -/
def FieldTask.succeeded (t : FieldTask) : Bool :=
  match t.out with
  | .ok _ => true
  | .error _ => false

/-- The value of a succeeded task (null for a failed one, never used there). -/
def FieldTask.value (t : FieldTask) : JValue :=
  match t.out with
  | .ok v => v
  | .error _ => .null

/-- A field node of the selection AST consumed by collect_fields: the field
name, the optional query alias (result_name returns the alias if given, else
the name) and the evaluated skip/include directive outcome (ctx.is_skip). -/
structure FieldNode where
  name : String
  alias_name : Option String
  skip : Bool

/-- The result key of a field: its alias if given, else its name (alias is a
reserved word in Lean, hence alias_name). -/
def FieldNode.result_name (f : FieldNode) : String :=
  f.alias_name.getD f.name

/-- Embeds the Selection enum of the parser ast as matched by collect_fields:
fields, fragment spreads and inline fragments with an optional type
condition. Each node carries the evaluated outcome of its skip/include
directives. -/
inductive Selection where
  | field (f : FieldNode)
  | fragmentSpread (fragment_name : String) (skip : Bool)
  | inlineFragment (type_condition : Option String) (skip : Bool)
      (selection_set : List Selection)

/-- The polymorphic root capabilities consumed by the resolution engine:
its runtime type name, the field-resolution capability (returning the
outcome the awaited future produces), the completion time of each field
future, and the narrow-by-type-condition capability used for inline
fragments. narrow_matches is modelled from the spec: the derived
collect_inline_fields impl is not under src/, and the spec says a
non-matching narrowing yields zero tasks while a matching one collects the
fragment selection against the same root. -/
structure Root where
  type_name : String
  resolve_field : String → Except GErr JValue
  resolve_time : String → Nat
  narrow_matches : String → Bool

/-- The slice of the selection context read by collect_fields: the current
selection items, the fragment map, whether any extension is active, and the
registry. -/
structure Ctx where
  items : List Selection
  fragments : List (String × List Selection)
  has_extensions : Bool
  registry : Registry

/-- Looks up the declared field on the static parent type, as the deferred
task body does: registry.types.get(parent) and then field_by_name. -/
def lookup_field (reg : Registry) (parent_type field_name : String) : Option Field :=
  (reg.get_type parent_type).bind fun ty => ty.field_by_name field_name

/-- The outcome of one deferred field task from src/src/resolver.rs lines
56-108: only when at least one extension is active does the task look up the
declared return type to build its ResolveInfo, failing with FieldNotFound
when the field is undeclared; otherwise, and after a successful lookup, the
task delegates to the root's field-resolution capability. -/
def field_task_out (has_ext : Bool) (reg : Registry) (parent_type field_name : String)
    (resolve_field : String → Except GErr JValue) : Except GErr JValue :=
  if has_ext then
    match lookup_field reg parent_type field_name with
    | none => .error (.fieldNotFound field_name parent_type)
    | some _ => resolve_field field_name
  else resolve_field field_name

mutual

/-- Embeds collect_fields from src/src/resolver.rs. The fuel bounds the
fragment-expansion depth: the source recurses unboundedly on cyclic fragment
maps, and a none result stands for that divergence; every selection context
reachable from an acyclic fragment map evaluates to some result with enough
fuel. An empty selection set fails with MustHaveSubFields; each selection
item otherwise contributes its tasks in declaration order. -/
def collect_fields (fuel : Nat) (ctx : Ctx) (root : Root) :
    Option (Except GErr (List FieldTask)) :=
  match fuel with
  | 0 => none
  | fuel + 1 =>
    if ctx.items.isEmpty then some (.error (.mustHaveSubFields root.type_name))
    else collect_items fuel ctx.items ctx root

/-- The item loop of collect_fields: a skipped item contributes nothing; a
field named __typename yields an immediately-ready task carrying the root's
runtime type name; any other field yields its deferred task; a fragment
spread recurses through the fragment map or fails with UnknownFragment; an
inline fragment recurses directly when it has no type condition and through
the root's narrow capability when it has one. -/
def collect_items (fuel : Nat) (items : List Selection) (ctx : Ctx) (root : Root) :
    Option (Except GErr (List FieldTask)) :=
  match items with
  | [] => some (.ok [])
  | item :: rest =>
    let step : Option (Except GErr (List FieldTask)) :=
      match item with
      | .field f =>
        if f.skip then some (.ok [])
        else if f.name == "__typename" then
          some (.ok [⟨f.result_name, 0, .ok (.str root.type_name)⟩])
        else
          some (.ok [⟨f.result_name, root.resolve_time f.name,
            field_task_out ctx.has_extensions ctx.registry root.type_name f.name
              root.resolve_field⟩])
      | .fragmentSpread fragment_name skip =>
        if skip then some (.ok [])
        else
          match (ctx.fragments.find? fun p => p.1 == fragment_name).map Prod.snd with
          | some selection_set =>
              collect_fields fuel { ctx with items := selection_set } root
          | none => some (.error (.unknownFragment fragment_name))
      | .inlineFragment type_condition skip selection_set =>
        if skip then some (.ok [])
        else
          match type_condition with
          | some cond =>
              if root.narrow_matches cond then
                collect_fields fuel { ctx with items := selection_set } root
              else some (.ok [])
          | none => collect_fields fuel { ctx with items := selection_set } root
    match step with
    | none => none
    | some (.error e) => some (.error e)
    | some (.ok tasks) =>
      match collect_items fuel rest ctx root with
      | none => none
      | some (.error e) => some (.error e)
      | some (.ok more) => some (.ok (tasks ++ more))

end

/-- The failed tasks, in production order, as completion time and error. -/
def failures (tasks : List FieldTask) : List (Nat × GErr) :=
  tasks.filterMap fun t =>
    match t.out with
    | .error e => some (t.time, e)
    | .ok _ => none

/-- The failure the fail-fast join observes first: minimal completion time,
ties resolved towards the earlier-produced task. -/
def first_failure : List (Nat × GErr) → Option (Nat × GErr)
  | [] => none
  | x :: rest => some (rest.foldl (fun a b => if b.1 < a.1 then b else a) x)

/-- Modelled from the spec: futures try_join_all drives every task
concurrently, fails fast with the first error in completion order, and on
success yields the task outputs in production order (spec section 5; the
futures crate is external to the repository). -/
def try_join_all (tasks : List FieldTask) : Except GErr (List (String × JValue)) :=
  match first_failure (failures tasks) with
  | some (_, e) => .error e
  | none => .ok (tasks.map fun t => (t.key, t.value))

/-- One insertion step of Map::from_iter: an existing key is overwritten in
place, a new key is appended. -/
def map_insert (m : List (String × JValue)) (kv : String × JValue) :
    List (String × JValue) :=
  if m.any fun p => p.1 == kv.1 then
    m.map fun p => if p.1 == kv.1 then kv else p
  else m ++ [kv]

/-- Modelled from the spec: serde_json::Map::from_iter over the joined
(key, value) pairs; the spec fixes the ordered-map behaviour (the ordered
keys form the output object), and repeated keys collapse into the one entry
the map holds for that key. -/
def map_from_iter (l : List (String × JValue)) : List (String × JValue) :=
  l.foldl map_insert []

/-- Embeds do_resolve from src/src/resolver.rs: collect the field tasks,
join them fail-fast, and build the ordered result object. -/
def do_resolve (fuel : Nat) (ctx : Ctx) (root : Root) : Option (Except GErr JValue) :=
  match collect_fields fuel ctx root with
  | none => none
  | some (.error e) => some (.error e)
  | some (.ok tasks) =>
    match try_join_all tasks with
    | .error e => some (.error e)
    | .ok res => some (.ok (.obj (map_from_iter res)))

theorem is_subtype_refl (t : TypeRef) (h : t.good = true) :
    TypeName.is_subtype (TypeName.create t.fmt) (TypeName.create t.fmt) = true := by
  induction t with
  | named n =>
    rw [show TypeRef.fmt (.named n) = n from rfl, create_good_named h]
    unfold TypeName.is_subtype
    simp
  | list t ih =>
    rw [create_fmt_list]
    unfold TypeName.is_subtype
    exact ih h
  | nonNull t ih =>
    rw [create_fmt_nonNull]
    unfold TypeName.is_subtype
    exact ih h

/-- C9: CacheControl::merge is commutative, merging with the default value
(public true, max_age 0) is the identity, the merged public flag is the
conjunction and the merged max_age is the other operand when one side is
zero and the minimum otherwise; merging public 30 with private 60 yields
private 30. -/
theorem c9_cache_control_merge :
    (∀ a b : CacheControl, a.merge b = b.merge a) ∧
    (∀ a : CacheControl, a.merge ⟨true, 0⟩ = a) ∧
    (∀ a b : CacheControl, (a.merge b).public = (a.public && b.public)) ∧
    (∀ a b : CacheControl, a.max_age = 0 → (a.merge b).max_age = b.max_age) ∧
    (∀ a b : CacheControl, b.max_age = 0 → (a.merge b).max_age = a.max_age) ∧
    (∀ a b : CacheControl, a.max_age ≠ 0 → b.max_age ≠ 0 →
      (a.merge b).max_age = min a.max_age b.max_age) ∧
    CacheControl.merge ⟨true, 30⟩ ⟨false, 60⟩ = ⟨false, 30⟩ := by
  refine ⟨?_, ?_, ?_, ?_, ?_, ?_, rfl⟩
  · intro a b
    cases a with
    | mk p m =>
      cases b with
      | mk q n =>
        unfold CacheControl.merge
        simp only [CacheControl.mk.injEq]
        constructor
        · exact Bool.and_comm p q
        · by_cases h1 : m = 0 <;> by_cases h2 : n = 0 <;>
            simp [h1, h2, Nat.min_comm]
  · intro a
    cases a with
    | mk p m =>
      unfold CacheControl.merge
      by_cases h : m = 0 <;> simp [h]
  · intro a b
    rfl
  · intro a b h
    unfold CacheControl.merge
    simp [h]
  · intro a b h
    unfold CacheControl.merge
    by_cases h1 : a.max_age = 0 <;> simp [h, h1]
  · intro a b h1 h2
    unfold CacheControl.merge
    simp [h1, h2]

/-- C8: for every type-reference string built from the named, list and
non-null combinators over legal base names, formatting the parse returns the
string unchanged. -/
theorem c8_roundtrip (t : TypeRef) (h : t.good = true) :
    (TypeName.create t.fmt).display = t.fmt := by
  cases t with
  | named n =>
    rw [show TypeRef.fmt (.named n) = n from rfl, create_good_named h]
    rfl
  | list t' =>
    rw [create_fmt_list]
    rfl
  | nonNull t' =>
    rw [create_fmt_nonNull]
    rfl

/-- C8 witness: the string built as non-null of list of non-null of String
is the ten-character string bracket S t r i n g bang bracket bang, and
formatting its parse returns it unchanged. -/
theorem c8_roundtrip_witness :
    TypeRef.good (.nonNull (.list (.nonNull (.named "String".data)))) = true ∧
    (TypeName.create "[String!]!".data).display = "[String!]!".data :=
  ⟨by decide,
   by
    have h := c8_roundtrip (.nonNull (.list (.nonNull (.named "String".data)))) (by decide)
    simpa [TypeRef.fmt, String.data] using h⟩

/-- C4 counterexample: the non-null list candidate (list of Int, non-null)
is not accepted by the nullable list expectation (list of Int), refuting the
claim that a non-null candidate satisfies the nullable expectation for every
inner form: the source match has no arm pairing a List expectation with a
NonNull candidate. -/
theorem c4_list_counterexample :
    TypeName.is_subtype (TypeName.create "[Int]".data) (TypeName.create "[Int]!".data)
      = false := by
  have h1 : TypeName.create "[Int]!".data = .NonNull "[Int]".data := by decide
  have h2 : TypeName.create "[Int]".data = .List "Int".data := by decide
  rw [h1, h2]
  unfold TypeName.is_subtype
  simp

/-- C4 amended: is_subtype is reflexive for every legal type reference; a
non-null candidate satisfies the same non-null expectation for every inner
form and satisfies a nullable expectation only in the named form (so Int
bang is a subtype of Int but Int is not a subtype of Int bang, while a
non-null list candidate does not satisfy the nullable list expectation);
List is covariant element-wise; Named against Named requires exact name
equality; every other constructor pairing is not a subtype. -/
theorem c4_is_subtype_amended :
    (∀ t : TypeRef, t.good = true →
      TypeName.is_subtype (TypeName.create t.fmt) (TypeName.create t.fmt) = true) ∧
    (∀ n : Str, goodName n = true →
      TypeName.is_subtype (TypeName.create n) (TypeName.create (n ++ ['!'])) = true) ∧
    TypeName.is_subtype (TypeName.create "Int".data) (TypeName.create "Int!".data) = true ∧
    TypeName.is_subtype (TypeName.create "Int!".data) (TypeName.create "Int".data) = false ∧
    (∀ a b : Str, TypeName.is_subtype (.List a) (.List b) =
      TypeName.is_subtype (TypeName.create a) (TypeName.create b)) ∧
    (∀ a b : Str, TypeName.is_subtype (.NonNull a) (.NonNull b) =
      TypeName.is_subtype (TypeName.create a) (TypeName.create b)) ∧
    (∀ a b : Str, TypeName.is_subtype (.Named a) (.NonNull b) =
      TypeName.is_subtype (TypeName.create a) (TypeName.create b)) ∧
    (∀ a b : Str, TypeName.is_subtype (.Named a) (.Named b) = (a == b)) ∧
    (∀ a b : Str, TypeName.is_subtype (.NonNull a) (.Named b) = false) ∧
    (∀ a b : Str, TypeName.is_subtype (.NonNull a) (.List b) = false) ∧
    (∀ a b : Str, TypeName.is_subtype (.List a) (.Named b) = false) ∧
    (∀ a b : Str, TypeName.is_subtype (.List a) (.NonNull b) = false) ∧
    (∀ a b : Str, TypeName.is_subtype (.Named a) (.List b) = false) := by
  refine ⟨is_subtype_refl, ?_, ?_, ?_, ?_, ?_, ?_, ?_, ?_, ?_, ?_, ?_, ?_⟩
  · intro n h
    have h1 : TypeName.create (n ++ ['!']) = .NonNull n := by
      unfold TypeName.create parse_non_null
      simp
    rw [create_good_named h, h1]
    unfold TypeName.is_subtype
    rw [create_good_named h]
    unfold TypeName.is_subtype
    simp
  · have h1 : TypeName.create "Int".data = .Named "Int".data := by decide
    have h2 : TypeName.create "Int!".data = .NonNull "Int".data := by decide
    rw [h1, h2]
    unfold TypeName.is_subtype
    rw [h1]
    unfold TypeName.is_subtype
    simp
  · have h1 : TypeName.create "Int".data = .Named "Int".data := by decide
    have h2 : TypeName.create "Int!".data = .NonNull "Int".data := by decide
    rw [h1, h2]
    unfold TypeName.is_subtype
    simp
  · intro a b
    conv_lhs => unfold TypeName.is_subtype
  · intro a b
    conv_lhs => unfold TypeName.is_subtype
  · intro a b
    conv_lhs => unfold TypeName.is_subtype
  · intro a b
    conv_lhs => unfold TypeName.is_subtype
  · intro a b
    conv_lhs => unfold TypeName.is_subtype
  · intro a b
    conv_lhs => unfold TypeName.is_subtype
  · intro a b
    conv_lhs => unfold TypeName.is_subtype
  · intro a b
    conv_lhs => unfold TypeName.is_subtype
  · intro a b
    conv_lhs => unfold TypeName.is_subtype

/-- C4 witness: reflexivity applied to the legal reference non-null list of
Int, and the named clause applied to the name Int. -/
theorem c4_is_subtype_amended_witness :
    TypeName.is_subtype (TypeName.create "[Int]!".data) (TypeName.create "[Int]!".data)
      = true ∧
    TypeName.is_subtype (TypeName.create "Int".data) (TypeName.create ("Int".data ++ ['!']))
      = true := by
  constructor
  · have h := c4_is_subtype_amended.1 (.nonNull (.list (.named "Int".data))) (by decide)
    simpa [TypeRef.fmt, String.data] using h
  · exact c4_is_subtype_amended.2.1 "Int".data (by decide)

theorem failures_eq_nil {tasks : List FieldTask}
    (h : ∀ t ∈ tasks, t.succeeded = true) : failures tasks = [] := by
  induction tasks with
  | nil => rfl
  | cons t rest ih =>
    have ht := h t (List.mem_cons_self t rest)
    have hrest : failures rest = [] := ih fun u hu => h u (List.mem_cons_of_mem t hu)
    cases hout : t.out with
    | ok v =>
      unfold failures at hrest ⊢
      rw [List.filterMap_cons, hout]
      simpa using hrest
    | error e => simp [FieldTask.succeeded, hout] at ht

theorem try_join_all_of_ok {tasks : List FieldTask} (h : failures tasks = []) :
    try_join_all tasks = .ok (tasks.map fun t => (t.key, t.value)) := by
  unfold try_join_all
  rw [h]
  rfl

theorem map_from_iter_aux (l : List (String × JValue)) :
    ∀ acc : List (String × JValue),
      ((acc ++ l).map Prod.fst).Nodup → l.foldl map_insert acc = acc ++ l := by
  induction l with
  | nil => intro acc _; simp
  | cons kv rest ih =>
    intro acc h
    have hk : (acc.any fun p => p.1 == kv.1) = false := by
      rw [List.any_eq_false]
      intro p hp hpe
      have heq : p.1 = kv.1 := eq_of_beq hpe
      have h1 : kv.1 ∈ acc.map Prod.fst := heq ▸ List.mem_map_of_mem Prod.fst hp
      have h2 := (List.nodup_append.mp (by simpa using h)).2.2
      exact h2 h1 (by simp)
    rw [List.foldl_cons]
    have hstep : map_insert acc kv = acc ++ [kv] := by
      unfold map_insert
      rw [hk]
      simp
    rw [hstep, ih (acc ++ [kv]) (by simpa using h)]
    simp

theorem foldl_pick_spec (rest : List (Nat × GErr)) (x : Nat × GErr) :
    ((rest.foldl (fun a b => if b.1 < a.1 then b else a) x) ∈ x :: rest) ∧
    (rest.foldl (fun a b => if b.1 < a.1 then b else a) x).1 ≤ x.1 ∧
    (∀ p ∈ rest, (rest.foldl (fun a b => if b.1 < a.1 then b else a) x).1 ≤ p.1) := by
  induction rest generalizing x with
  | nil => simp
  | cons y ys ih =>
    rw [List.foldl_cons]
    by_cases hxy : y.1 < x.1
    · rw [if_pos hxy]
      obtain ⟨hmem, hle, hall⟩ := ih y
      refine ⟨List.mem_cons_of_mem x hmem, by omega, ?_⟩
      intro p hp
      rcases List.mem_cons.mp hp with rfl | hp
      · exact hle
      · exact hall p hp
    · rw [if_neg hxy]
      obtain ⟨hmem, hle, hall⟩ := ih x
      refine ⟨?_, hle, ?_⟩
      · rcases List.mem_cons.mp hmem with hm | hm
        · exact List.mem_cons.mpr (.inl hm)
        · exact List.mem_cons.mpr (.inr (List.mem_cons_of_mem y hm))
      · intro p hp
        rcases List.mem_cons.mp hp with rfl | hp
        · omega
        · exact hall p hp

theorem first_failure_spec {l : List (Nat × GErr)} {m : Nat × GErr}
    (h : first_failure l = some m) : m ∈ l ∧ ∀ p ∈ l, m.1 ≤ p.1 := by
  cases l with
  | nil => cases h
  | cons x rest =>
    unfold first_failure at h
    injection h with h
    obtain ⟨hmem, hle, hall⟩ := foldl_pick_spec rest x
    subst h
    refine ⟨hmem, ?_⟩
    intro p hp
    rcases List.mem_cons.mp hp with rfl | hp
    · exact hle
    · exact hall p hp

theorem mem_failures_of_mem {tasks : List FieldTask} {t : FieldTask} {e : GErr}
    (ht : t ∈ tasks) (he : t.out = .error e) : (t.time, e) ∈ failures tasks := by
  unfold failures
  exact List.mem_filterMap.mpr ⟨t, ht, by rw [he]⟩

/-- C1 amended: when every collected task succeeds and the produced result
keys are pairwise distinct, the result object of do_resolve has exactly one
entry per collected field task and its key sequence equals the order in
which collect_fields produced the tasks, whatever completion times the
field futures have; tasks sharing a result key are collapsed by the result
map into the one entry it holds for that key. -/
theorem c1_resolve_order (fuel : Nat) (ctx : Ctx) (root : Root)
    (tasks : List FieldTask)
    (hcollect : collect_fields fuel ctx root = some (.ok tasks))
    (hok : ∀ t ∈ tasks, t.succeeded = true)
    (hnd : (tasks.map FieldTask.key).Nodup) :
    do_resolve fuel ctx root
      = some (.ok (.obj (tasks.map fun t => (t.key, t.value)))) ∧
    (tasks.map fun t => (t.key, t.value)).map Prod.fst = tasks.map FieldTask.key := by
  have hmap : ((tasks.map fun t => (t.key, t.value)).map Prod.fst)
      = tasks.map FieldTask.key := by
    rw [List.map_map]
    rfl
  constructor
  · have hjoin := try_join_all_of_ok (failures_eq_nil hok)
    simp only [do_resolve, hcollect, hjoin]
    unfold map_from_iter
    rw [map_from_iter_aux _ [] (by simpa [hmap] using hnd)]
    simp
  · exact hmap

/-- C2: if any collected field task fails, do_resolve returns the error of a
failing task whose completion time is minimal among all failures (the first
failure in completion order) and no result object; values of succeeded
sibling tasks are discarded. -/
theorem c2_fail_fast (fuel : Nat) (ctx : Ctx) (root : Root)
    (tasks : List FieldTask) (t0 : FieldTask) (e0 : GErr)
    (hcollect : collect_fields fuel ctx root = some (.ok tasks))
    (hmem : t0 ∈ tasks) (herr : t0.out = .error e0) :
    ∃ time e, (time, e) ∈ failures tasks ∧
      (∀ p ∈ failures tasks, time ≤ p.1) ∧
      do_resolve fuel ctx root = some (.error e) := by
  have hne : failures tasks ≠ [] := by
    intro hnil
    have := mem_failures_of_mem hmem herr
    rw [hnil] at this
    cases this
  cases hff : first_failure (failures tasks) with
  | none =>
    cases hl : failures tasks with
    | nil => exact absurd hl hne
    | cons x rest => rw [hl] at hff; cases hff
  | some m =>
    obtain ⟨hmm, hmin⟩ := first_failure_spec hff
    refine ⟨m.1, m.2, by simpa using hmm, hmin, ?_⟩
    simp only [do_resolve, hcollect, try_join_all, hff]

/-- Recombination lemma: a resolution whose collected tasks join to an error
returns exactly that error. Kept with variable arguments so that concrete
instances follow by instantiation. -/
theorem do_resolve_error_of_parts (fuel : Nat) (ctx : Ctx) (root : Root)
    (tasks : List FieldTask) (e : GErr)
    (h1 : collect_fields fuel ctx root = some (.ok tasks))
    (hj : try_join_all tasks = .error e) :
    do_resolve fuel ctx root = some (.error e) := by
  simp only [do_resolve, h1, hj]

def c1_ctx : Ctx :=
  ⟨[.field ⟨"a", none, false⟩, .field ⟨"b", none, false⟩, .field ⟨"c", none, false⟩],
   [], false, ⟨[], "Query", none, none⟩⟩

def c1_root : Root :=
  ⟨"Query", fun n => .ok (.str n), fun n => if n == "b" then 100 else 1, fun _ => false⟩

def c1_tasks : List FieldTask :=
  [⟨"a", 1, .ok (.str "a")⟩, ⟨"b", 100, .ok (.str "b")⟩, ⟨"c", 1, .ok (.str "c")⟩]

/-- C1 witness: on the selection a b c where the b future completes last
(time 100 against 1), collect produces the three tasks in declaration order
and do_resolve yields the keys a, b, c in that order. -/
theorem c1_resolve_order_witness :
    collect_fields 2 c1_ctx c1_root = some (.ok c1_tasks) ∧
    do_resolve 2 c1_ctx c1_root = some (.ok (.obj
      [("a", .str "a"), ("b", .str "b"), ("c", .str "c")])) := by
  have h1 : collect_fields 2 c1_ctx c1_root = some (.ok c1_tasks) := by
    simp [collect_fields, collect_items, field_task_out, c1_ctx, c1_root, c1_tasks,
      FieldNode.result_name]
  have hok : ∀ t ∈ c1_tasks, t.succeeded = true := by
    intro t ht
    simp [c1_tasks] at ht
    rcases ht with rfl | rfl | rfl <;> rfl
  have hnd : (c1_tasks.map FieldTask.key).Nodup := by
    simp [c1_tasks, FieldTask.key]
  have h2 := (c1_resolve_order 2 c1_ctx c1_root c1_tasks h1 hok hnd).1
  exact ⟨h1, h2⟩

def c1dup_ctx : Ctx :=
  ⟨[.field ⟨"a", none, false⟩, .field ⟨"a", none, false⟩], [], false,
   ⟨[], "Query", none, none⟩⟩

def c1dup_root : Root :=
  ⟨"Query", fun _ => .ok (.num 1), fun _ => 0, fun _ => false⟩

/-- C1 counterexample: the selection a a yields two collected field tasks
but a one-entry result object, so the result does not have exactly one entry
per collected task. -/
theorem c1_duplicate_key_counterexample :
    collect_fields 2 c1dup_ctx c1dup_root
      = some (.ok [⟨"a", 0, .ok (.num 1)⟩, ⟨"a", 0, .ok (.num 1)⟩]) ∧
    do_resolve 2 c1dup_ctx c1dup_root = some (.ok (.obj [("a", .num 1)])) := by
  constructor
  · simp [collect_fields, collect_items, field_task_out, c1dup_ctx, c1dup_root,
      FieldNode.result_name]
  · simp [do_resolve, collect_fields, collect_items, field_task_out, try_join_all,
      failures, first_failure, map_from_iter, map_insert, FieldNode.result_name,
      FieldTask.value, c1dup_ctx, c1dup_root]

def c2_ctx : Ctx :=
  ⟨[.field ⟨"slowOk", none, false⟩, .field ⟨"fastErr", none, false⟩], [], false,
   ⟨[], "Query", none, none⟩⟩

def c2_root : Root :=
  ⟨"Query",
   fun n => if n == "fastErr" then .error (.fieldError "boom") else .ok (.num 1),
   fun n => if n == "fastErr" then 1 else 100,
   fun _ => false⟩

def c2_tasks : List FieldTask :=
  [⟨"slowOk", 100, .ok (.num 1)⟩, ⟨"fastErr", 1, .error (.fieldError "boom")⟩]

/-- C2 witness: on the selection slowOk fastErr where fastErr fails at time 1
and slowOk would succeed at time 100, do_resolve returns only the fastErr
error and the slowOk value never appears. -/
theorem c2_fail_fast_witness :
    do_resolve 2 c2_ctx c2_root = some (.error (.fieldError "boom")) ∧
    (∃ time e, (time, e) ∈ failures c2_tasks ∧
      (∀ p ∈ failures c2_tasks, time ≤ p.1) ∧
      do_resolve 2 c2_ctx c2_root = some (.error e)) := by
  have h1 : collect_fields 2 c2_ctx c2_root = some (.ok c2_tasks) := by
    simp [collect_fields, collect_items, field_task_out, c2_ctx, c2_root, c2_tasks,
      FieldNode.result_name]
  have hjoin : try_join_all c2_tasks = .error (.fieldError "boom") := by
    simp [try_join_all, failures, first_failure, c2_tasks]
  constructor
  · exact do_resolve_error_of_parts 2 c2_ctx c2_root c2_tasks (.fieldError "boom") h1 hjoin
  · exact c2_fail_fast 2 c2_ctx c2_root c2_tasks
      ⟨"fastErr", 1, .error (.fieldError "boom")⟩ (.fieldError "boom") h1
      (List.Mem.tail _ (List.Mem.head _)) rfl

/-- C3 amended: when at least one extension is active, a selected field other
than typename introspection whose name is undeclared on the static parent
type yields a task failing with FieldNotFound carrying the field name and
the parent object type name, whatever the field-resolution capability would
return (the capability is never consulted); the task outcome and the whole
collected list do not depend on the resolver. -/
theorem c3_field_not_found_amended (fuel : Nat) (reg : Registry)
    (frags : List (String × List Selection)) (root : Root) (f : FieldNode)
    (hskip : f.skip = false) (hname : (f.name == "__typename") = false)
    (hlook : lookup_field reg root.type_name f.name = none) :
    (∀ resolver : String → Except GErr JValue,
      field_task_out true reg root.type_name f.name resolver
        = .error (.fieldNotFound f.name root.type_name)) ∧
    collect_fields (fuel + 1) ⟨[.field f], frags, true, reg⟩ root
      = some (.ok [⟨f.result_name, root.resolve_time f.name,
          .error (.fieldNotFound f.name root.type_name)⟩]) := by
  constructor
  · intro resolver
    unfold field_task_out
    rw [hlook]
    rfl
  · simp [collect_fields, collect_items, field_task_out, hskip, hname, hlook]

/-- C3 witness: with an active extension and an empty registry, the field
named missing yields a FieldNotFound task even though its resolver would
succeed with 42. -/
theorem c3_field_not_found_witness :
    field_task_out true ⟨[], "Query", none, none⟩ "Query" "missing"
        (fun _ => .ok (.num 42))
      = .error (.fieldNotFound "missing" "Query") ∧
    collect_fields 1
        ⟨[.field ⟨"missing", none, false⟩], [], true, ⟨[], "Query", none, none⟩⟩
        ⟨"Query", fun _ => .ok (.num 42), fun _ => 7, fun _ => false⟩
      = some (.ok [⟨"missing", 7, .error (.fieldNotFound "missing" "Query")⟩]) := by
  have h := c3_field_not_found_amended 0 ⟨[], "Query", none, none⟩ []
    ⟨"Query", fun _ => .ok (.num 42), fun _ => 7, fun _ => false⟩
    ⟨"missing", none, false⟩ rfl rfl rfl
  exact ⟨h.1 (fun _ => .ok (.num 42)), h.2⟩

/-- C3 counterexample: with no active extension the registry check is
skipped entirely: an undeclared field task invokes the resolver and returns
its value instead of failing with FieldNotFound. -/
theorem c3_no_extensions_counterexample :
    lookup_field ⟨[], "Query", none, none⟩ "Query" "missing" = none ∧
    field_task_out false ⟨[], "Query", none, none⟩ "Query" "missing"
        (fun _ => .ok (.num 42))
      = .ok (.num 42) ∧
    collect_fields 1
        ⟨[.field ⟨"missing", none, false⟩], [], false, ⟨[], "Query", none, none⟩⟩
        ⟨"Query", fun _ => .ok (.num 42), fun _ => 7, fun _ => false⟩
      = some (.ok [⟨"missing", 7, .ok (.num 42)⟩]) := by
  refine ⟨rfl, rfl, ?_⟩
  simp [collect_fields, collect_items, field_task_out, FieldNode.result_name]

/-- A plain object field with the given name and type and no federation
markers. -/
def plainField (name : String) (ty : Str) : Field :=
  ⟨name, ty, none, CacheControl.default, false, none, none⟩

/-- C5: failing-input evaluation for the four-field skip bug. The first
registry holds a single non-root object Product with exactly four ordinary
fields, and its SDL is empty because create_federation_type returns early on
any object with exactly four fields, though the source comment at that check
intends only the reserved introspection-plus-federation query root; the same
object with three fields is emitted, and a keyed object with federation
markers is emitted with key, external, requires and provides directives. -/
theorem c5_four_field_object_skipped :
    Registry.create_federation_sdl
      ⟨[("Product", .object "Product"
          [plainField "a" "Int".data, plainField "b" "Int".data,
           plainField "c" "Int".data, plainField "d" "Int".data]
          CacheControl.default false none)], "Query", none, none⟩
      = "" ∧
    Registry.create_federation_sdl
      ⟨[("Product", .object "Product"
          [plainField "a" "Int".data, plainField "b" "Int".data,
           plainField "c" "Int".data]
          CacheControl.default false none)], "Query", none, none⟩
      = "type Product \x7b\n\ta: Int\n\tb: Int\n\tc: Int\n\x7d\n" ∧
    Registry.create_federation_sdl
      ⟨[("Product", .object "Product"
          [⟨"id", "String!".data, none, CacheControl.default, false, none, none⟩,
           ⟨"price", "Int".data, none, CacheControl.default, true, some "id",
             some "name"⟩]
          CacheControl.default false (some ["id"]))], "Query", none, none⟩
      = "type Product @key(fields: \"id\") \x7b\n\tid: String!\n\tprice: Int @external @requires(fields: \"id\") @provides(fields: \"name\")\n\x7d\n" := by
  refine ⟨rfl, rfl, rfl⟩

theorem iv_variable (reg : Registry) (tn : Str) (p : QueryPathNode) (s : String) :
    is_valid_input_value reg tn (.variable s) p = none := by
  unfold is_valid_input_value
  rfl

theorem iv_nonnull_null (reg : Registry) {tn inner : Str} (p : QueryPathNode)
    (h : TypeName.create tn = .NonNull inner) :
    is_valid_input_value reg tn .null p
      = some (valid_error p ("expected type \"" ++ String.mk inner ++ "\"")) := by
  unfold is_valid_input_value
  split
  · next hv => simp [GqlValue.is_variable] at hv
  · split <;> rename_i heq <;> rw [h] at heq <;> simp at heq <;> subst heq <;> rfl

theorem iv_nonnull_notnull (reg : Registry) {tn inner : Str} (p : QueryPathNode)
    (h : TypeName.create tn = .NonNull inner) (v : GqlValue) (hv : v ≠ .null) :
    is_valid_input_value reg tn v p = is_valid_input_value reg inner v p := by
  cases v
  case «variable» s => rw [iv_variable, iv_variable]
  case null => exact absurd rfl hv
  all_goals
    conv_lhs => unfold is_valid_input_value
    rw [if_neg (by simp [GqlValue.is_variable])]
    split <;> rename_i heq <;> rw [h] at heq <;> simp at heq <;> subst heq <;> rfl

theorem iv_list_list (reg : Registry) {tn inner : Str} (p : QueryPathNode)
    (h : TypeName.create tn = .List inner) (elems : List GqlValue) :
    is_valid_input_value reg tn (.list elems) p
      = valid_list_elems reg inner elems 0 p := by
  conv_lhs => unfold is_valid_input_value
  rw [if_neg (by simp [GqlValue.is_variable])]
  split <;> rename_i heq <;> rw [h] at heq <;> simp at heq <;> subst heq <;> rfl

theorem iv_list_other (reg : Registry) {tn inner : Str} (p : QueryPathNode)
    (h : TypeName.create tn = .List inner) (v : GqlValue)
    (hv : ∀ xs, v ≠ .list xs) :
    is_valid_input_value reg tn v p = is_valid_input_value reg inner v p := by
  cases v
  case «variable» s => rw [iv_variable, iv_variable]
  case list xs => exact absurd rfl (hv xs)
  all_goals
    conv_lhs => unfold is_valid_input_value
    rw [if_neg (by simp [GqlValue.is_variable])]
    split <;> rename_i heq <;> rw [h] at heq <;> simp at heq <;> subst heq <;> rfl

theorem iv_named_null (reg : Registry) {tn n : Str} (p : QueryPathNode)
    (h : TypeName.create tn = .Named n) :
    is_valid_input_value reg tn .null p = none := by
  unfold is_valid_input_value
  split
  · next hv => simp [GqlValue.is_variable] at hv
  · split <;> rename_i heq <;> rw [h] at heq <;> simp at heq <;> subst heq <;> rfl

theorem iv_named_composite (reg : Registry) {tn n : Str} (p : QueryPathNode)
    (h : TypeName.create tn = .Named n) {t : GqlType}
    (hg : reg.get_type (String.mk n) = some t) (hc : t.is_composite = true)
    (v : GqlValue) :
    is_valid_input_value reg tn v p = none := by
  cases v
  case «variable» s => rw [iv_variable]
  case null => rw [iv_named_null reg p h]
  all_goals
    conv_lhs => unfold is_valid_input_value
    rw [if_neg (by simp [GqlValue.is_variable])]
    split <;> rename_i heq <;> rw [h] at heq <;> simp at heq <;> subst heq <;>
      rw [hg] <;> cases t <;> simp [GqlType.is_composite] at hc <;> rfl

theorem iv_named_scalar (reg : Registry) {tn n : Str} (p : QueryPathNode)
    (h : TypeName.create tn = .Named n) {sname : String} {isv : GqlValue → Bool}
    (hg : reg.get_type (String.mk n) = some (.scalar sname isv))
    (v : GqlValue) (hnull : v ≠ .null) (hvar : v.is_variable = false) :
    is_valid_input_value reg tn v p
      = if !(isv v) then
          some (valid_error p ("expected type \"" ++ String.mk n ++ "\""))
        else none := by
  cases v
  case «variable» s => simp [GqlValue.is_variable] at hvar
  case null => exact absurd rfl hnull
  all_goals
    conv_lhs => unfold is_valid_input_value
    rw [if_neg (by simp [GqlValue.is_variable])]
    split <;> rename_i heq <;> rw [h] at heq <;> simp at heq <;> subst heq <;> rw [hg]

theorem iv_named_inputobject (reg : Registry) {tn n : Str} (p : QueryPathNode)
    (h : TypeName.create tn = .Named n) {o : String} {flds : List InputValue}
    (hg : reg.get_type (String.mk n) = some (.inputObject o flds))
    (values : List (String × GqlValue)) :
    is_valid_input_value reg tn (.object values) p
      = (match valid_input_object_fields reg flds o values p with
         | some reason => some reason
         | none =>
           match (values.map Prod.fst).filter
               (fun k => !(flds.any (fun f => f.name == k))) with
           | [] => none
           | k :: _ => some (valid_error p
               ("unknown field \"" ++ k ++ "\" of type \"" ++ o ++ "\""))) := by
  conv_lhs => unfold is_valid_input_value
  rw [if_neg (by simp [GqlValue.is_variable])]
  split <;> rename_i heq <;> rw [h] at heq <;> simp at heq <;> subst heq <;> rw [hg]

theorem iv_named_nonobject_inputobject (reg : Registry) {tn n : Str}
    (p : QueryPathNode) (h : TypeName.create tn = .Named n) {o : String}
    {flds : List InputValue}
    (hg : reg.get_type (String.mk n) = some (.inputObject o flds))
    (v : GqlValue) (hv : ∀ fs, v ≠ .object fs) :
    is_valid_input_value reg tn v p = none := by
  cases v
  case «variable» s => rw [iv_variable]
  case null => rw [iv_named_null reg p h]
  case object fs => exact absurd rfl (hv fs)
  all_goals
    conv_lhs => unfold is_valid_input_value
    rw [if_neg (by simp [GqlValue.is_variable])]
    split <;> rename_i heq <;> rw [h] at heq <;> simp at heq <;> subst heq <;> rw [hg]

theorem vle_nil (reg : Registry) (inner : Str) (idx : Nat) (p : QueryPathNode) :
    valid_list_elems reg inner [] idx p = none := by
  unfold valid_list_elems
  rfl

theorem vle_cons (reg : Registry) (inner : Str) (e : GqlValue)
    (rest : List GqlValue) (idx : Nat) (p : QueryPathNode) :
    valid_list_elems reg inner (e :: rest) idx p
      = (match is_valid_input_value reg inner e (p.child (.index idx)) with
         | some reason => some reason
         | none => valid_list_elems reg inner rest (idx + 1) p) := by
  conv_lhs => unfold valid_list_elems

theorem vif_nil (reg : Registry) (o : String) (values : List (String × GqlValue))
    (p : QueryPathNode) :
    valid_input_object_fields reg [] o values p = none := by
  unfold valid_input_object_fields
  rfl

theorem vif_cons_present_validator_fail (reg : Registry) (f : InputValue)
    (rest : List InputValue) (o : String) (values : List (String × GqlValue))
    (p : QueryPathNode) {v : GqlValue} {val : GqlValue → Option String}
    {reason : String}
    (hget : objGet values f.name = some v) (hval : f.validator = some val)
    (hres : val v = some reason) :
    valid_input_object_fields reg (f :: rest) o values p
      = some (valid_error (p.child (.name f.name)) reason) := by
  conv_lhs => unfold valid_input_object_fields
  split <;> rename_i heq <;> rw [hget] at heq
  · injection heq with heq2
    subst heq2
    rw [hval]
    simp [hres]
  · cases heq

theorem vif_cons_present_validator_ok (reg : Registry) (f : InputValue)
    (rest : List InputValue) (o : String) (values : List (String × GqlValue))
    (p : QueryPathNode) {v : GqlValue} {val : GqlValue → Option String}
    (hget : objGet values f.name = some v) (hval : f.validator = some val)
    (hres : val v = none) :
    valid_input_object_fields reg (f :: rest) o values p
      = (match is_valid_input_value reg f.ty v (p.child (.name f.name)) with
         | some reason => some reason
         | none => valid_input_object_fields reg rest o values p) := by
  conv_lhs => unfold valid_input_object_fields
  split <;> rename_i heq <;> rw [hget] at heq
  · injection heq with heq2
    subst heq2
    rw [hval]
    simp [hres]
  · cases heq

theorem vif_cons_present_no_validator (reg : Registry) (f : InputValue)
    (rest : List InputValue) (o : String) (values : List (String × GqlValue))
    (p : QueryPathNode) {v : GqlValue}
    (hget : objGet values f.name = some v) (hval : f.validator = none) :
    valid_input_object_fields reg (f :: rest) o values p
      = (match is_valid_input_value reg f.ty v (p.child (.name f.name)) with
         | some reason => some reason
         | none => valid_input_object_fields reg rest o values p) := by
  conv_lhs => unfold valid_input_object_fields
  split <;> rename_i heq <;> rw [hget] at heq
  · injection heq with heq2
    subst heq2
    rw [hval]
  · cases heq

theorem vif_cons_absent (reg : Registry) (f : InputValue)
    (rest : List InputValue) (o : String) (values : List (String × GqlValue))
    (p : QueryPathNode) (hget : objGet values f.name = none) :
    valid_input_object_fields reg (f :: rest) o values p
      = if (TypeName.create f.ty).is_non_null && f.default_value.isNone then
          some (valid_error p
            ("field \"" ++ f.name ++ "\" of type \"" ++ o
              ++ "\" is required but not provided"))
        else valid_input_object_fields reg rest o values p := by
  conv_lhs => unfold valid_input_object_fields
  split <;> rename_i heq <;> rw [hget] at heq <;>
    first
    | rfl
    | cases heq

theorem concrete_of_nonNull {tn inner : Str} (h : TypeName.create tn = .NonNull inner) :
    TypeName.concrete_typename tn = TypeName.concrete_typename inner := by
  conv_lhs => unfold TypeName.concrete_typename
  split <;> rename_i heq <;> rw [h] at heq <;> simp at heq <;> subst heq <;> rfl

theorem concrete_of_list {tn inner : Str} (h : TypeName.create tn = .List inner) :
    TypeName.concrete_typename tn = TypeName.concrete_typename inner := by
  conv_lhs => unfold TypeName.concrete_typename
  split <;> rename_i heq <;> rw [h] at heq <;> simp at heq <;> subst heq <;> rfl

theorem concrete_of_named {tn n : Str} (h : TypeName.create tn = .Named n) :
    TypeName.concrete_typename tn = n := by
  conv_lhs => unfold TypeName.concrete_typename
  split <;> rename_i heq <;> rw [h] at heq <;> simp at heq <;> subst heq <;> rfl

mutual

/-- True when neither the value itself nor any list element at any nesting
depth is the null value. -/
def noNulls : GqlValue → Bool
  | .null => false
  | .list xs => noNullsList xs
  | _ => true

def noNullsList : List GqlValue → Bool
  | [] => true
  | x :: xs => noNulls x && noNullsList xs

end

theorem noNulls_of_mem {xs : List GqlValue} (h : noNullsList xs = true) :
    ∀ e ∈ xs, noNulls e = true := by
  induction xs with
  | nil => intro e he; cases he
  | cons x rest ih =>
    unfold noNullsList at h
    rw [Bool.and_eq_true] at h
    intro e he
    rcases List.mem_cons.mp he with rfl | he
    · exact h.1
    · exact ih h.2 e he

theorem vle_none_iff (reg : Registry) (inner : Str) :
    ∀ (elems : List GqlValue) (idx : Nat) (p : QueryPathNode),
      valid_list_elems reg inner elems idx p = none ↔
        ∀ i : Fin elems.length,
          is_valid_input_value reg inner (elems.get i)
            (p.child (.index (idx + i.val))) = none := by
  intro elems
  induction elems with
  | nil =>
    intro idx p
    rw [vle_nil]
    constructor
    · intro _ i
      exact absurd i.isLt (by simp)
    · intro _
      rfl
  | cons e rest ih =>
    intro idx p
    rw [vle_cons]
    cases hiv : is_valid_input_value reg inner e (p.child (.index idx)) with
    | some r =>
      constructor
      · intro h
        cases h
      · intro h
        have h0 := h ⟨0, Nat.succ_pos _⟩
        rw [show ((e :: rest).get ⟨0, Nat.succ_pos _⟩) = e from rfl,
          Nat.add_zero, hiv] at h0
        cases h0
    | none =>
      rw [ih (idx + 1) p]
      constructor
      · intro h i
        refine Fin.cases ?_ ?_ i
        · simpa using hiv
        · intro j
          have hj := h j
          simp only [List.get_cons_succ, Fin.val_succ]
          rw [show idx + (j.val + 1) = idx + 1 + j.val by omega]
          exact hj
      · intro h j
        have hj := h j.succ
        simp only [List.get_cons_succ, Fin.val_succ] at hj
        rw [show idx + (j.val + 1) = idx + 1 + j.val by omega] at hj
        exact hj

/-- C7: is_valid_input_value strips wrappers recursively: a bound variable
value is always accepted regardless of the expected type; against a non-null
reference a null value is rejected with an expected-type message naming the
inner reference, and any other value is validated against the inner
reference; against a list reference a list value validates exactly when
every element validates against the inner reference at its index-extended
path, while a non-list value is validated directly against the inner
reference; against a bare named reference a null value is always accepted. -/
theorem c7_wrapper_stripping :
    (∀ (reg : Registry) (tn : Str) (p : QueryPathNode) (s : String),
      is_valid_input_value reg tn (.variable s) p = none) ∧
    (∀ (reg : Registry) (tn inner : Str) (p : QueryPathNode),
      TypeName.create tn = .NonNull inner →
      is_valid_input_value reg tn .null p
        = some (valid_error p ("expected type \"" ++ String.mk inner ++ "\""))) ∧
    (∀ (reg : Registry) (tn inner : Str) (p : QueryPathNode) (v : GqlValue),
      TypeName.create tn = .NonNull inner → v ≠ .null →
      is_valid_input_value reg tn v p = is_valid_input_value reg inner v p) ∧
    (∀ (reg : Registry) (tn inner : Str) (p : QueryPathNode) (elems : List GqlValue),
      TypeName.create tn = .List inner →
      (is_valid_input_value reg tn (.list elems) p
        = valid_list_elems reg inner elems 0 p) ∧
      (is_valid_input_value reg tn (.list elems) p = none ↔
        ∀ i : Fin elems.length,
          is_valid_input_value reg inner (elems.get i)
            (p.child (.index i.val)) = none)) ∧
    (∀ (reg : Registry) (tn inner : Str) (p : QueryPathNode) (v : GqlValue),
      TypeName.create tn = .List inner → (∀ xs, v ≠ .list xs) →
      is_valid_input_value reg tn v p = is_valid_input_value reg inner v p) ∧
    (∀ (reg : Registry) (tn n : Str) (p : QueryPathNode),
      TypeName.create tn = .Named n →
      is_valid_input_value reg tn .null p = none) := by
  refine ⟨iv_variable, ?_, ?_, ?_, ?_, ?_⟩
  · intro reg tn inner p h
    exact iv_nonnull_null reg p h
  · intro reg tn inner p v h hv
    exact iv_nonnull_notnull reg p h v hv
  · intro reg tn inner p elems h
    refine ⟨iv_list_list reg p h elems, ?_⟩
    rw [iv_list_list reg p h elems, vle_none_iff]
    constructor
    · intro hall i
      have := hall i
      rwa [Nat.zero_add] at this
    · intro hall i
      have := hall i
      rwa [Nat.zero_add]
  · intro reg tn inner p v h hv
    exact iv_list_other reg p h v hv
  · intro reg tn n p h
    exact iv_named_null reg p h

def c7_int_is_valid : GqlValue → Bool
  | .int _ => true
  | _ => false

def c7_reg : Registry :=
  ⟨[("Int", .scalar "Int" c7_int_is_valid)], "Query", none, none⟩

def c7_p : QueryPathNode := ⟨[], .name "arg"⟩

/-- C7 witness: against Int-non-null, a variable is accepted and null is
rejected with the expected-type message; against list-of-Int a plain integer
is validated directly against Int; against bare Int null is accepted. -/
theorem c7_wrapper_stripping_witness :
    is_valid_input_value c7_reg "Int!".data (.variable "v") c7_p = none ∧
    is_valid_input_value c7_reg "Int!".data .null c7_p
      = some "\"arg\", expected type \"Int\"" ∧
    is_valid_input_value c7_reg "[Int]".data (.int 5) c7_p
      = is_valid_input_value c7_reg "Int".data (.int 5) c7_p ∧
    is_valid_input_value c7_reg "Int".data .null c7_p = none := by
  refine ⟨c7_wrapper_stripping.1 c7_reg "Int!".data c7_p "v", ?_, ?_, ?_⟩
  · rw [c7_wrapper_stripping.2.1 c7_reg "Int!".data "Int".data c7_p (by decide)]
    rfl
  · exact c7_wrapper_stripping.2.2.2.2.1 c7_reg "[Int]".data "Int".data c7_p (.int 5)
      (by decide) (by intro xs h; cases h)
  · exact c7_wrapper_stripping.2.2.2.2.2 c7_reg "Int".data "Int".data c7_p (by decide)

theorem c10_aux (reg : Registry) :
    ∀ (n : Nat) (tn : Str) (v : GqlValue) (p : QueryPathNode) (t : GqlType),
      tn.length + sizeOf v ≤ n →
      reg.get_type (String.mk (TypeName.concrete_typename tn)) = some t →
      t.is_composite = true → noNulls v = true →
      is_valid_input_value reg tn v p = none := by
  intro n
  induction n with
  | zero =>
    intro tn v p t hn _ _ _
    have hv : 0 < sizeOf v := by cases v <;> simp_arith
    omega
  | succ n ih =>
    intro tn v p t hn hget hcomp hnn
    cases hc : TypeName.create tn with
    | NonNull inner =>
      have hlen := create_nonNull_length hc
      have hvnull : v ≠ .null := by
        intro he
        subst he
        simp [noNulls] at hnn
      rw [iv_nonnull_notnull reg p hc v hvnull]
      rw [concrete_of_nonNull hc] at hget
      exact ih inner v p t (by omega) hget hcomp hnn
    | List inner =>
      have hlen := create_list_length hc
      rw [concrete_of_list hc] at hget
      cases v
      case null => simp [noNulls] at hnn
      case «variable» s => rw [iv_variable]
      case list elems =>
        rw [iv_list_list reg p hc]
        have hsize : sizeOf elems < sizeOf (GqlValue.list elems) := by simp_arith
        have hmem : ∀ e ∈ elems, noNulls e = true := by
          apply noNulls_of_mem
          simpa [noNulls] using hnn
        have hloop : ∀ (es : List GqlValue), (∀ e ∈ es, e ∈ elems) →
            ∀ (idx : Nat) (p2 : QueryPathNode),
              valid_list_elems reg inner es idx p2 = none := by
          intro es
          induction es with
          | nil =>
            intro _ idx p2
            exact vle_nil reg inner idx p2
          | cons e rest ihe =>
            intro hsub idx p2
            rw [vle_cons]
            have hemem := hsub e (List.mem_cons_self e rest)
            have hesize : sizeOf e < sizeOf elems := List.sizeOf_lt_of_mem hemem
            have hiv := ih inner e (p2.child (.index idx)) t (by omega) hget hcomp
              (hmem e hemem)
            rw [hiv]
            exact ihe (fun e2 h2 => hsub e2 (List.mem_cons_of_mem e h2)) (idx + 1) p2
        exact hloop elems (fun _ h => h) 0 p
      all_goals
        rw [iv_list_other reg p hc _ (by intro xs h; cases h)]
        exact ih inner _ p t (by omega) hget hcomp hnn
    | Named name =>
      rw [concrete_of_named hc] at hget
      exact iv_named_composite reg p hc hget hcomp v

/-- C10 amended: when the concrete named type a type reference resolves to
is an Object, Interface or Union, is_valid_input_value accepts with no error
every value in which neither the value itself nor any nested list element is
null (bound variables included); a null reached under a non-null wrapper,
such as a null list element of a non-null element reference, is still
rejected. -/
theorem c10_composite_accepts (reg : Registry) (tn : Str) (v : GqlValue)
    (p : QueryPathNode) (t : GqlType)
    (hget : reg.get_type (String.mk (TypeName.concrete_typename tn)) = some t)
    (hcomp : t.is_composite = true) (hnn : noNulls v = true) :
    is_valid_input_value reg tn v p = none :=
  c10_aux reg (tn.length + sizeOf v) tn v p t (Nat.le_refl _) hget hcomp hnn

def c10_reg : Registry :=
  ⟨[("Obj", .object "Obj" [] CacheControl.default false none)], "Query", none, none⟩

/-- C10 counterexample: the reference list-of-non-null-Obj resolves to the
composite object type Obj, and the value holding a single null element is
neither a variable nor null, yet validation produces an error, refuting the
claim that composite concrete types never produce an error for non-variable
non-null values. -/
theorem c10_nested_null_counterexample :
    TypeName.concrete_typename "[Obj!]".data = "Obj".data ∧
    is_valid_input_value c10_reg "[Obj!]".data (.list [.null]) ⟨[], .name "input"⟩
      = some "\"input.0\", expected type \"Obj\"" := by
  constructor
  · rw [concrete_of_list (by decide : TypeName.create "[Obj!]".data = .List "Obj!".data),
      concrete_of_nonNull (by decide : TypeName.create "Obj!".data = .NonNull "Obj".data),
      concrete_of_named (by decide : TypeName.create "Obj".data = .Named "Obj".data)]
  · rw [iv_list_list c10_reg _
      (by decide : TypeName.create "[Obj!]".data = .List "Obj!".data)]
    rw [vle_cons]
    rw [iv_nonnull_null c10_reg _
      (by decide : TypeName.create "Obj!".data = .NonNull "Obj".data)]
    decide

/-- C10 witness: against the same registry, the reference list-of-Obj with a
value holding one integer element (no nulls anywhere) validates with no
error. -/
theorem c10_composite_accepts_witness :
    noNulls (.list [.int 1]) = true ∧
    is_valid_input_value c10_reg "[Obj]".data (.list [.int 1]) ⟨[], .name "input"⟩
      = none := by
  constructor
  · rfl
  · refine c10_composite_accepts c10_reg "[Obj]".data (.list [.int 1])
      ⟨[], .name "input"⟩ (.object "Obj" [] CacheControl.default false none) ?_ rfl rfl
    rw [concrete_of_list (by decide : TypeName.create "[Obj]".data = .List "Obj".data),
      concrete_of_named (by decide : TypeName.create "Obj".data = .Named "Obj".data)]
    rfl

def c6_int_is_valid : GqlValue → Bool
  | .int _ => true
  | _ => false

/-- The registry of the MyInput spec example: an Int scalar accepting
integer literals (modelled from the spec: the derived Int scalar
implementation is not under src/) and the input object MyInput with one
field named value of type Int and default 100. -/
def c6_reg : Registry :=
  ⟨[("Int", .scalar "Int" c6_int_is_valid),
    ("MyInput", .inputObject "MyInput" [⟨"value", "Int".data, some "100", none⟩])],
   "Query", none, none⟩

def c6_p : QueryPathNode := ⟨[], .name "input"⟩

/-- C6 amended: validating against an InputObject reference inspects only
object values, and a non-object value is accepted with no error; for an
object value, after the declared-field loop succeeds, any remaining key
yields an unknown-field error naming that key and the input object type; a
declared field that is present runs its validator capability first and a
validator failure message is returned immediately, before recursive
validation and before later fields; a declared field that is absent is an
error exactly when its type is non-null and it has no default; so for
MyInput with the Int-typed field value defaulting to 100, the empty object
and the object setting value to 88 validate with no error, and the object
with the single key bogus fails with a message naming unknown field bogus. -/
theorem c6_input_object_validation :
    (∀ (reg : Registry) (tn n : Str) (o : String) (flds : List InputValue)
        (p : QueryPathNode) (v : GqlValue),
      TypeName.create tn = .Named n →
      reg.get_type (String.mk n) = some (.inputObject o flds) →
      (∀ fs, v ≠ .object fs) →
      is_valid_input_value reg tn v p = none) ∧
    (∀ (reg : Registry) (tn n : Str) (o : String) (flds : List InputValue)
        (p : QueryPathNode) (values : List (String × GqlValue)) (k : String)
        (ks : List String),
      TypeName.create tn = .Named n →
      reg.get_type (String.mk n) = some (.inputObject o flds) →
      valid_input_object_fields reg flds o values p = none →
      (values.map Prod.fst).filter
          (fun key => !(flds.any (fun f => f.name == key))) = k :: ks →
      is_valid_input_value reg tn (.object values) p
        = some (valid_error p
            ("unknown field \"" ++ k ++ "\" of type \"" ++ o ++ "\""))) ∧
    (∀ (reg : Registry) (tn n : Str) (o : String) (flds : List InputValue)
        (p : QueryPathNode) (values : List (String × GqlValue)),
      TypeName.create tn = .Named n →
      reg.get_type (String.mk n) = some (.inputObject o flds) →
      valid_input_object_fields reg flds o values p = none →
      (values.map Prod.fst).filter
          (fun key => !(flds.any (fun f => f.name == key))) = [] →
      is_valid_input_value reg tn (.object values) p = none) ∧
    (∀ (reg : Registry) (f : InputValue) (rest : List InputValue) (o : String)
        (values : List (String × GqlValue)) (p : QueryPathNode) (v : GqlValue)
        (val : GqlValue → Option String) (reason : String),
      objGet values f.name = some v → f.validator = some val →
      val v = some reason →
      valid_input_object_fields reg (f :: rest) o values p
        = some (valid_error (p.child (.name f.name)) reason)) ∧
    (∀ (reg : Registry) (f : InputValue) (rest : List InputValue) (o : String)
        (values : List (String × GqlValue)) (p : QueryPathNode),
      objGet values f.name = none →
      valid_input_object_fields reg (f :: rest) o values p
        = if (TypeName.create f.ty).is_non_null && f.default_value.isNone then
            some (valid_error p
              ("field \"" ++ f.name ++ "\" of type \"" ++ o
                ++ "\" is required but not provided"))
          else valid_input_object_fields reg rest o values p) ∧
    is_valid_input_value c6_reg "MyInput".data (.object []) c6_p = none ∧
    is_valid_input_value c6_reg "MyInput".data
      (.object [("value", .int 88)]) c6_p = none ∧
    is_valid_input_value c6_reg "MyInput".data
      (.object [("bogus", .int 1)]) c6_p
      = some "\"input\", unknown field \"bogus\" of type \"MyInput\"" := by
  have hNamed : TypeName.create "MyInput".data = .Named "MyInput".data := by decide
  have hGet : c6_reg.get_type (String.mk "MyInput".data)
      = some (.inputObject "MyInput" [⟨"value", "Int".data, some "100", none⟩]) := rfl
  refine ⟨?_, ?_, ?_, ?_, ?_, ?_, ?_, ?_⟩
  · intro reg tn n o flds p v h hg hv
    exact iv_named_nonobject_inputobject reg p h hg v hv
  · intro reg tn n o flds p values k ks h hg hvif hfil
    rw [iv_named_inputobject reg p h hg values, hvif, hfil]
  · intro reg tn n o flds p values h hg hvif hfil
    rw [iv_named_inputobject reg p h hg values, hvif, hfil]
  · intro reg f rest o values p v val reason hget hval hres
    exact vif_cons_present_validator_fail reg f rest o values p hget hval hres
  · intro reg f rest o values p hget
    exact vif_cons_absent reg f rest o values p hget
  · rw [iv_named_inputobject c6_reg c6_p hNamed hGet []]
    rw [vif_cons_absent c6_reg ⟨"value", "Int".data, some "100", none⟩ []
      "MyInput" [] c6_p rfl]
    rw [if_neg (by decide), vif_nil]
    rfl
  · rw [iv_named_inputobject c6_reg c6_p hNamed hGet [("value", .int 88)]]
    rw [vif_cons_present_no_validator c6_reg ⟨"value", "Int".data, some "100", none⟩
      [] "MyInput" [("value", .int 88)] c6_p rfl rfl]
    rw [iv_named_scalar c6_reg _ (by decide : TypeName.create "Int".data
        = .Named "Int".data) rfl (.int 88) (by intro h; cases h) rfl]
    rw [if_neg (by decide), vif_nil]
    rfl
  · rw [iv_named_inputobject c6_reg c6_p hNamed hGet [("bogus", .int 1)]]
    rw [vif_cons_absent c6_reg ⟨"value", "Int".data, some "100", none⟩ []
      "MyInput" [("bogus", .int 1)] c6_p rfl]
    rw [if_neg (by decide), vif_nil]
    decide

/-- C6 counterexample: an integer literal validated against the MyInput
input object type is accepted with no error, refuting the clause that an
object value is required. -/
theorem c6_nonobject_counterexample :
    is_valid_input_value c6_reg "MyInput".data (.int 5) c6_p = none :=
  iv_named_nonobject_inputobject c6_reg c6_p
    (by decide : TypeName.create "MyInput".data = .Named "MyInput".data)
    (show c6_reg.get_type (String.mk "MyInput".data)
        = some (.inputObject "MyInput" [⟨"value", "Int".data, some "100", none⟩])
      from rfl)
    (.int 5) (by intro fs h; cases h)

/-- C6 witness: the non-object clause applied to a boolean literal against
MyInput, and the validator-first clause applied to a field whose validator
rejects with the message too big. -/
theorem c6_input_object_witness :
    is_valid_input_value c6_reg "MyInput".data (.boolean true) c6_p = none ∧
    valid_input_object_fields c6_reg
        [⟨"num", "Int".data, none, some (fun _ => some "too big")⟩] "T"
        [("num", .int 7)] c6_p
      = some (valid_error (c6_p.child (.name "num")) "too big") := by
  constructor
  · exact c6_input_object_validation.1 c6_reg "MyInput".data "MyInput".data
      "MyInput" [⟨"value", "Int".data, some "100", none⟩] c6_p (.boolean true)
      (by decide) rfl (by intro fs h; cases h)
  · exact c6_input_object_validation.2.2.2.1 c6_reg
      ⟨"num", "Int".data, none, some (fun _ => some "too big")⟩ [] "T"
      [("num", .int 7)] c6_p (.int 7) (fun _ => some "too big") "too big"
      rfl rfl rfl

/-- C9 witness: commutativity, the zero-side rule and the minimum rule of
CacheControl merge applied at concrete values. -/
theorem c9_cache_control_merge_witness :
    CacheControl.merge ⟨true, 0⟩ ⟨false, 7⟩ = CacheControl.merge ⟨false, 7⟩ ⟨true, 0⟩ ∧
    (CacheControl.merge ⟨true, 0⟩ ⟨false, 7⟩).max_age = 7 ∧
    (CacheControl.merge ⟨true, 5⟩ ⟨false, 7⟩).max_age = min 5 7 :=
  ⟨c9_cache_control_merge.1 ⟨true, 0⟩ ⟨false, 7⟩,
   c9_cache_control_merge.2.2.2.1 ⟨true, 0⟩ ⟨false, 7⟩ rfl,
   c9_cache_control_merge.2.2.2.2.2.1 ⟨true, 5⟩ ⟨false, 7⟩ (by decide) (by decide)⟩

end AsyncGraphql
